import Mathlib

/-!
Verification of the dotenv-build crate (src/find.rs and src/lib.rs):
the upward directory search that locates the dotenv file, and the
output routine that turns the parsed entries into cargo instructions.

Paths are modelled as lists of components from the filesystem root:
the empty list is the root, and Path.parent of a non-root path drops
the last component, exactly as std Path.parent walks up one level.
-/

namespace DotenvBuild

/-- A filesystem path, as the list of its components from the root.
The root directory is the empty list; join appends a component. -/
abbrev Path := List String

/-- The kind tag of a std io-Error, restricted to the cases the crate
inspects: metadata lookup distinguishes only the not-found kind from
every other kind, so other kinds are carried abstractly. -/
inductive IoErrorKind where
  | notFound
  | permissionDenied
  | interrupted
  | otherKind (code : Nat)
deriving DecidableEq, Repr

/-- A std io-Error: its kind tag plus its message text. -/
structure IoError where
  kind : IoErrorKind
  msg : String
deriving DecidableEq, Repr

/-- Modelled from the spec: the crate error enum lives in errors.rs,
which is not among the provided sources. Per the spec's error surface
(section 7) and its tagged-variant requirement, and per the uses in
find.rs (Error.Io wrapping io errors) and lib.rs (a LineParse error
carrying the offending raw line), it is a tagged enum with an Io
variant and a parse-failure variant. -/
inductive Error where
  | Io (e : IoError)
  | LineParse (line : String)
deriving DecidableEq, Repr

/-- Modelled from the spec: the explicit is-not-found predicate on the
error enum, used by output_write_to in lib.rs. True exactly on an Io
error whose kind tag is not-found; no string matching. -/
def Error.not_found : Error → Bool
  | Error.Io e => decide (e.kind = IoErrorKind.notFound)
  | Error.LineParse _ => false

/-- The result of one fs metadata query: success carries whether the
entry is a regular file (the only metadata field the crate reads),
failure carries the io error. -/
inductive MetaResult where
  | ok (is_file : Bool)
  | err (e : IoError)
deriving DecidableEq, Repr

/-- A filesystem, abstracted as the outcome of a metadata query at
each path. -/
abbrev Fs := Path → MetaResult

/-- The NotFound error built by find_internal when the search is
exhausted: Error.Io(io-Error.new(ErrorKind.NotFound, "path not found")). -/
def notFoundErr : Error := Error.Io ⟨IoErrorKind.notFound, "path not found"⟩

/-- The first match arm of find_internal: probe the candidate path.
Returns some result when the function returns early (a regular file
found, or a metadata error whose kind is not not-found), none when
control falls through to the parent step. -/
def probe (fs : Fs) (candidate : Path) : Option (Except Error Path) :=
  match fs candidate with
  | MetaResult.ok is_file =>
    if is_file then some (Except.ok candidate) else none
  | MetaResult.err e =>
    if e.kind ≠ IoErrorKind.notFound then some (Except.error (Error.Io e)) else none

/-- The recursion of find_internal, with explicit fuel. Each step
moves to the parent directory, dropping one component, so the chain
from a directory to the root has exactly as many steps as the
directory has components; the wrapper supplies that count as fuel, so
fuel runs out exactly when the root (which has no parent) is reached
and the no-parent arm of the source applies. -/
def find_go (fs : Fs) (filename : String) (recursive : Bool) : Nat → Path → Except Error Path
  | 0, directory =>
    match probe fs (directory ++ [filename]) with
    | some r => r
    | none => Except.error notFoundErr
  | fuel + 1, directory =>
    match probe fs (directory ++ [filename]) with
    | some r => r
    | none =>
      match recursive, directory with
      | true, _ :: _ => find_go fs filename recursive fuel directory.dropLast
      | _, _ => Except.error notFoundErr

/-- find_internal from src/find.rs: probe directory.join(filename);
a regular file succeeds, a metadata error of kind other than not-found
aborts, anything else falls through to the parent directory when the
recursive flag is set and a parent exists, and otherwise fails with
the NotFound error. -/
def find_internal (fs : Fs) (directory : Path) (filename : String) (recursive : Bool) : Except Error Path :=
  find_go fs filename recursive directory.length directory

/-- The ancestor of a directory at a given depth: depth zero is the
directory itself, each further level drops the last component. -/
def ancestor (directory : Path) : Nat → Path
  | 0 => directory
  | d + 1 => (ancestor directory d).dropLast

/-- A probe at this path falls through: the entry exists but is not a
regular file, or the metadata lookup fails with kind not-found. -/
def missAt (fs : Fs) (p : Path) : Bool :=
  match fs p with
  | MetaResult.ok is_file => !is_file
  | MetaResult.err e => decide (e.kind = IoErrorKind.notFound)

theorem ancestor_dropLast (directory : Path) (d : Nat) :
    ancestor directory.dropLast d = ancestor directory (d + 1) := by
  induction d with
  | zero => rfl
  | succ d ih => simp only [ancestor, ih]

theorem ancestor_length (directory : Path) (d : Nat) :
    (ancestor directory d).length = directory.length - d := by
  induction d with
  | zero => rfl
  | succ d ih => simp only [ancestor, List.length_dropLast, ih]; omega

theorem probe_of_missAt (fs : Fs) (p : Path) (h : missAt fs p = true) :
    probe fs p = none := by
  unfold missAt at h
  unfold probe
  cases hp : fs p with
  | ok is_file =>
    rw [hp] at h
    simp at h
    simp [h]
  | err e =>
    rw [hp] at h
    simp at h
    simp [h]

theorem find_go_hit (fs : Fs) (filename : String) (recursive : Bool) (fuel : Nat)
    (directory : Path) (h : fs (directory ++ [filename]) = MetaResult.ok true) :
    find_go fs filename recursive fuel directory = Except.ok (directory ++ [filename]) := by
  have hp : probe fs (directory ++ [filename]) = some (Except.ok (directory ++ [filename])) := by
    unfold probe
    rw [h]
    simp
  cases fuel <;> simp only [find_go, hp]

theorem find_go_err (fs : Fs) (filename : String) (recursive : Bool) (fuel : Nat)
    (directory : Path) (e : IoError)
    (h : fs (directory ++ [filename]) = MetaResult.err e)
    (hk : e.kind ≠ IoErrorKind.notFound) :
    find_go fs filename recursive fuel directory = Except.error (Error.Io e) := by
  have hp : probe fs (directory ++ [filename]) = some (Except.error (Error.Io e)) := by
    unfold probe
    rw [h]
    simp [hk]
  cases fuel <;> simp only [find_go, hp]

theorem find_go_miss_cons (fs : Fs) (filename : String) (fuel : Nat)
    (x : String) (xs : List String)
    (h : missAt fs ((x :: xs) ++ [filename]) = true) :
    find_go fs filename true (fuel + 1) (x :: xs) =
      find_go fs filename true fuel (x :: xs).dropLast := by
  have hp : probe fs ((x :: xs) ++ [filename]) = none := probe_of_missAt fs _ h
  simp only [find_go, hp]

theorem find_go_miss_stop (fs : Fs) (filename : String) (recursive : Bool)
    (fuel : Nat) (directory : Path)
    (h : missAt fs (directory ++ [filename]) = true)
    (hstop : recursive = false ∨ directory = []) :
    find_go fs filename recursive fuel directory = Except.error notFoundErr := by
  have hp : probe fs (directory ++ [filename]) = none := probe_of_missAt fs _ h
  rcases hstop with hr | hd
  · subst hr
    cases fuel with
    | zero => simp only [find_go, hp]
    | succ fuel => simp only [find_go, hp]
  · subst hd
    cases fuel with
    | zero => simp only [find_go, hp]
    | succ fuel => simp only [find_go, hp]

theorem find_internal_hit (fs : Fs) (directory : Path) (filename : String) (recursive : Bool)
    (h : fs (directory ++ [filename]) = MetaResult.ok true) :
    find_internal fs directory filename recursive = Except.ok (directory ++ [filename]) :=
  find_go_hit fs filename recursive directory.length directory h

theorem find_internal_err (fs : Fs) (directory : Path) (filename : String) (recursive : Bool)
    (e : IoError) (h : fs (directory ++ [filename]) = MetaResult.err e)
    (hk : e.kind ≠ IoErrorKind.notFound) :
    find_internal fs directory filename recursive = Except.error (Error.Io e) :=
  find_go_err fs filename recursive directory.length directory e h hk

theorem find_internal_miss_step (fs : Fs) (directory : Path) (filename : String)
    (h : missAt fs (directory ++ [filename]) = true) (hne : directory ≠ []) :
    find_internal fs directory filename true =
      find_internal fs directory.dropLast filename true := by
  rcases directory with _ | ⟨x, xs⟩
  · exact absurd rfl hne
  · unfold find_internal
    have hlen : (x :: xs).length = xs.length + 1 := rfl
    rw [hlen, find_go_miss_cons fs filename xs.length x xs h]
    have : ((x :: xs).dropLast).length = xs.length := by
      simp [List.length_dropLast]
    rw [this]

theorem find_internal_miss_stop (fs : Fs) (directory : Path) (filename : String)
    (recursive : Bool) (h : missAt fs (directory ++ [filename]) = true)
    (hstop : recursive = false ∨ directory = []) :
    find_internal fs directory filename recursive = Except.error notFoundErr :=
  find_go_miss_stop fs filename recursive directory.length directory h hstop

theorem missAt_congr (fs fs' : Fs) (p : Path) (h : fs p = fs' p) :
    missAt fs p = missAt fs' p := by
  unfold missAt
  rw [h]

theorem not_missAt (fs : Fs) (p : Path) (h : missAt fs p = false) :
    fs p = MetaResult.ok true ∨
      ∃ e, fs p = MetaResult.err e ∧ e.kind ≠ IoErrorKind.notFound := by
  unfold missAt at h
  cases hp : fs p with
  | ok is_file =>
    rw [hp] at h
    simp at h
    subst h
    exact Or.inl rfl
  | err e =>
    rw [hp] at h
    simp at h
    exact Or.inr ⟨e, rfl, h⟩

theorem find_internal_depth (fs : Fs) (filename : String) (d : Nat) :
    ∀ directory : Path, d ≤ directory.length →
      fs (ancestor directory d ++ [filename]) = MetaResult.ok true →
      (∀ k, k < d → missAt fs (ancestor directory k ++ [filename]) = true) →
      find_internal fs directory filename true = Except.ok (ancestor directory d ++ [filename]) := by
  induction d with
  | zero =>
    intro directory _ hhit _
    exact find_internal_hit fs directory filename true hhit
  | succ d ih =>
    intro directory hd hhit hmiss
    have hne : directory ≠ [] := by
      intro h0
      rw [h0] at hd
      simp at hd
    have hmiss0 : missAt fs (directory ++ [filename]) = true := hmiss 0 (Nat.succ_pos d)
    have hd' : d ≤ directory.dropLast.length := by
      rw [List.length_dropLast]
      omega
    have hhit' : fs (ancestor directory.dropLast d ++ [filename]) = MetaResult.ok true := by
      rw [ancestor_dropLast]
      exact hhit
    have hmiss' : ∀ k, k < d → missAt fs (ancestor directory.dropLast k ++ [filename]) = true := by
      intro k hk
      rw [ancestor_dropLast]
      exact hmiss (k + 1) (by omega)
    rw [find_internal_miss_step fs directory filename hmiss0 hne,
      ih directory.dropLast hd' hhit' hmiss', ancestor_dropLast]

theorem find_internal_error_depth (fs : Fs) (filename : String) (e : IoError)
    (hk : e.kind ≠ IoErrorKind.notFound) (d : Nat) :
    ∀ directory : Path, d ≤ directory.length →
      fs (ancestor directory d ++ [filename]) = MetaResult.err e →
      (∀ k, k < d → missAt fs (ancestor directory k ++ [filename]) = true) →
      find_internal fs directory filename true = Except.error (Error.Io e) := by
  induction d with
  | zero =>
    intro directory _ herr _
    exact find_internal_err fs directory filename true e herr hk
  | succ d ih =>
    intro directory hd herr hmiss
    have hne : directory ≠ [] := by
      intro h0
      rw [h0] at hd
      simp at hd
    have hmiss0 : missAt fs (directory ++ [filename]) = true := hmiss 0 (Nat.succ_pos d)
    have hd' : d ≤ directory.dropLast.length := by
      rw [List.length_dropLast]
      omega
    have herr' : fs (ancestor directory.dropLast d ++ [filename]) = MetaResult.err e := by
      rw [ancestor_dropLast]
      exact herr
    have hmiss' : ∀ k, k < d → missAt fs (ancestor directory.dropLast k ++ [filename]) = true := by
      intro k hk'
      rw [ancestor_dropLast]
      exact hmiss (k + 1) (by omega)
    rw [find_internal_miss_step fs directory filename hmiss0 hne]
    exact ih directory.dropLast hd' herr' hmiss'

theorem find_internal_exhausted (fs : Fs) (filename : String) :
    ∀ (n : Nat) (directory : Path), directory.length = n →
      (∀ k, k ≤ directory.length → missAt fs (ancestor directory k ++ [filename]) = true) →
      find_internal fs directory filename true = Except.error notFoundErr := by
  intro n
  induction n with
  | zero =>
    intro directory hlen hmiss
    have hnil : directory = [] := List.length_eq_zero.mp hlen
    have hmiss0 : missAt fs (directory ++ [filename]) = true := hmiss 0 (Nat.zero_le _)
    exact find_internal_miss_stop fs directory filename true hmiss0 (Or.inr hnil)
  | succ n ih =>
    intro directory hlen hmiss
    have hne : directory ≠ [] := by
      intro h0
      rw [h0] at hlen
      simp at hlen
    have hmiss0 : missAt fs (directory ++ [filename]) = true := hmiss 0 (Nat.zero_le _)
    have hlen' : directory.dropLast.length = n := by
      rw [List.length_dropLast]
      omega
    have hmiss' : ∀ k, k ≤ directory.dropLast.length →
        missAt fs (ancestor directory.dropLast k ++ [filename]) = true := by
      intro k hk
      rw [ancestor_dropLast]
      refine hmiss (k + 1) ?_
      rw [List.length_dropLast] at hk
      omega
    rw [find_internal_miss_step fs directory filename hmiss0 hne]
    exact ih directory.dropLast hlen' hmiss'

theorem find_internal_congr (filename : String) (recursive : Bool) :
    ∀ (n : Nat) (fs fs' : Fs) (directory : Path), directory.length = n →
      (∀ k, k ≤ directory.length →
        fs (ancestor directory k ++ [filename]) = fs' (ancestor directory k ++ [filename])) →
      find_internal fs directory filename recursive =
        find_internal fs' directory filename recursive := by
  intro n
  induction n with
  | zero =>
    intro fs fs' directory hlen hagree
    have hnil : directory = [] := List.length_eq_zero.mp hlen
    have h0 : fs (directory ++ [filename]) = fs' (directory ++ [filename]) :=
      hagree 0 (Nat.zero_le _)
    cases hm : missAt fs (directory ++ [filename]) with
    | true =>
      have hm' : missAt fs' (directory ++ [filename]) = true := by
        rw [← missAt_congr fs fs' _ h0]
        exact hm
      rw [find_internal_miss_stop fs directory filename recursive hm (Or.inr hnil),
        find_internal_miss_stop fs' directory filename recursive hm' (Or.inr hnil)]
    | false =>
      rcases not_missAt fs _ hm with hhit | ⟨e, herr, hk⟩
      · rw [find_internal_hit fs directory filename recursive hhit,
          find_internal_hit fs' directory filename recursive (h0 ▸ hhit)]
      · rw [find_internal_err fs directory filename recursive e herr hk,
          find_internal_err fs' directory filename recursive e (h0 ▸ herr) hk]
  | succ n ih =>
    intro fs fs' directory hlen hagree
    have hne : directory ≠ [] := by
      intro h0
      rw [h0] at hlen
      simp at hlen
    have h0 : fs (directory ++ [filename]) = fs' (directory ++ [filename]) :=
      hagree 0 (Nat.zero_le _)
    cases hm : missAt fs (directory ++ [filename]) with
    | true =>
      have hm' : missAt fs' (directory ++ [filename]) = true := by
        rw [← missAt_congr fs fs' _ h0]
        exact hm
      have hagree' : ∀ k, k ≤ directory.dropLast.length →
          fs (ancestor directory.dropLast k ++ [filename]) =
            fs' (ancestor directory.dropLast k ++ [filename]) := by
        intro k hk
        rw [ancestor_dropLast]
        refine hagree (k + 1) ?_
        rw [List.length_dropLast] at hk
        omega
      have hlen' : directory.dropLast.length = n := by
        rw [List.length_dropLast]
        omega
      cases recursive with
      | false =>
        rw [find_internal_miss_stop fs directory filename false hm (Or.inl rfl),
          find_internal_miss_stop fs' directory filename false hm' (Or.inl rfl)]
      | true =>
        rw [find_internal_miss_step fs directory filename hm hne,
          find_internal_miss_step fs' directory filename hm' hne]
        exact ih fs fs' directory.dropLast hlen' hagree'
    | false =>
      rcases not_missAt fs _ hm with hhit | ⟨e, herr, hk⟩
      · rw [find_internal_hit fs directory filename recursive hhit,
          find_internal_hit fs' directory filename recursive (h0 ▸ hhit)]
      · rw [find_internal_err fs directory filename recursive e herr hk,
          find_internal_err fs' directory filename recursive e (h0 ▸ herr) hk]

theorem find_internal_ok_shape (fs : Fs) (filename : String) (recursive : Bool) :
    ∀ (n : Nat) (directory : Path), directory.length = n →
      ∀ p, find_internal fs directory filename recursive = Except.ok p →
        ∃ k, k ≤ directory.length ∧ p = ancestor directory k ++ [filename] := by
  intro n
  induction n with
  | zero =>
    intro directory hlen p hok
    have hnil : directory = [] := List.length_eq_zero.mp hlen
    cases hm : missAt fs (directory ++ [filename]) with
    | true =>
      rw [find_internal_miss_stop fs directory filename recursive hm (Or.inr hnil)] at hok
      exact absurd hok (by simp)
    | false =>
      rcases not_missAt fs _ hm with hhit | ⟨e, herr, hk⟩
      · rw [find_internal_hit fs directory filename recursive hhit] at hok
        exact ⟨0, Nat.zero_le _, (Except.ok.injEq _ _ ▸ hok).symm⟩
      · rw [find_internal_err fs directory filename recursive e herr hk] at hok
        exact absurd hok (by simp)
  | succ n ih =>
    intro directory hlen p hok
    have hne : directory ≠ [] := by
      intro h0
      rw [h0] at hlen
      simp at hlen
    cases hm : missAt fs (directory ++ [filename]) with
    | true =>
      cases recursive with
      | false =>
        rw [find_internal_miss_stop fs directory filename false hm (Or.inl rfl)] at hok
        exact absurd hok (by simp)
      | true =>
        rw [find_internal_miss_step fs directory filename hm hne] at hok
        have hlen' : directory.dropLast.length = n := by
          rw [List.length_dropLast]
          omega
        rcases ih directory.dropLast hlen' p hok with ⟨k, hk, hp⟩
        refine ⟨k + 1, ?_, ?_⟩
        · rw [List.length_dropLast] at hk
          omega
        · rw [← ancestor_dropLast]
          exact hp
    | false =>
      rcases not_missAt fs _ hm with hhit | ⟨e, herr, hk⟩
      · rw [find_internal_hit fs directory filename recursive hhit] at hok
        exact ⟨0, Nat.zero_le _, (Except.ok.injEq _ _ ▸ hok).symm⟩
      · rw [find_internal_err fs directory filename recursive e herr hk] at hok
        exact absurd hok (by simp)

theorem find_internal_error_shape (fs : Fs) (filename : String) (recursive : Bool) :
    ∀ (n : Nat) (directory : Path), directory.length = n →
      ∀ e, find_internal fs directory filename recursive = Except.error e →
        e = notFoundErr ∨ ∃ e', e = Error.Io e' ∧ e'.kind ≠ IoErrorKind.notFound := by
  intro n
  induction n with
  | zero =>
    intro directory hlen e hok
    have hnil : directory = [] := List.length_eq_zero.mp hlen
    cases hm : missAt fs (directory ++ [filename]) with
    | true =>
      rw [find_internal_miss_stop fs directory filename recursive hm (Or.inr hnil)] at hok
      exact Or.inl (Except.error.injEq _ _ ▸ hok).symm
    | false =>
      rcases not_missAt fs _ hm with hhit | ⟨e', herr, hk⟩
      · rw [find_internal_hit fs directory filename recursive hhit] at hok
        exact absurd hok (by simp)
      · rw [find_internal_err fs directory filename recursive e' herr hk] at hok
        exact Or.inr ⟨e', (Except.error.injEq _ _ ▸ hok).symm, hk⟩
  | succ n ih =>
    intro directory hlen e hok
    have hne : directory ≠ [] := by
      intro h0
      rw [h0] at hlen
      simp at hlen
    cases hm : missAt fs (directory ++ [filename]) with
    | true =>
      cases recursive with
      | false =>
        rw [find_internal_miss_stop fs directory filename false hm (Or.inl rfl)] at hok
        exact Or.inl (Except.error.injEq _ _ ▸ hok).symm
      | true =>
        rw [find_internal_miss_step fs directory filename hm hne] at hok
        have hlen' : directory.dropLast.length = n := by
          rw [List.length_dropLast]
          omega
        exact ih directory.dropLast hlen' e hok
    | false =>
      rcases not_missAt fs _ hm with hhit | ⟨e', herr, hk⟩
      · rw [find_internal_hit fs directory filename recursive hhit] at hok
        exact absurd hok (by simp)
      · rw [find_internal_err fs directory filename recursive e' herr hk] at hok
        exact Or.inr ⟨e', (Except.error.injEq _ _ ▸ hok).symm, hk⟩

/-- A sample filesystem for concrete checks: a regular dotenv file at
the home-user level, a directory of the same name one level up, and
nothing anywhere else. -/
def exFs : Fs := fun p =>
  if p = ["home", "user", ".env"] then MetaResult.ok true
  else if p = ["home", ".env"] then MetaResult.ok false
  else MetaResult.err ⟨IoErrorKind.notFound, "no such file or directory"⟩

/-- A sample filesystem where probing the candidate at the home-user
level fails with a permissions error while a regular file of the
target name exists one level above it. -/
def exFsPerm : Fs := fun p =>
  if p = ["home", "user", ".env"] then
    MetaResult.err ⟨IoErrorKind.permissionDenied, "permission denied"⟩
  else if p = ["home", ".env"] then MetaResult.ok true
  else MetaResult.err ⟨IoErrorKind.notFound, "no such file or directory"⟩

/-- The sample filesystem exFs with one extra regular file placed in a
sibling directory of the start directory. -/
def exFsSibling : Fs := fun p =>
  if p = ["home", "user", "other", ".env"] then MetaResult.ok true
  else exFs p

/-- C1: if the target exists as a regular file at ancestor depth d of
the starting directory (and at no smaller depth), find_internal with
the recursive flag returns that ancestor joined with the filename for
every such d, while without the flag it succeeds exactly when d is
zero and otherwise fails with the NotFound error. -/
theorem locate_finds_nearest_ancestor (fs : Fs) (directory : Path) (filename : String)
    (d : Nat) (hd : d ≤ directory.length)
    (hhit : fs (ancestor directory d ++ [filename]) = MetaResult.ok true)
    (hmiss : ∀ k, k < d → missAt fs (ancestor directory k ++ [filename]) = true) :
    find_internal fs directory filename true =
      Except.ok (ancestor directory d ++ [filename]) ∧
    find_internal fs directory filename false =
      (if d = 0 then Except.ok (directory ++ [filename]) else Except.error notFoundErr) ∧
    notFoundErr.not_found = true := by
  refine ⟨find_internal_depth fs filename d directory hd hhit hmiss, ?_, rfl⟩
  cases d with
  | zero =>
    simp only [if_pos rfl]
    exact find_internal_hit fs directory filename false hhit
  | succ d =>
    simp only [Nat.succ_ne_zero, if_neg]
    exact find_internal_miss_stop fs directory filename false
      (hmiss 0 (Nat.succ_pos d)) (Or.inl rfl)

theorem locate_finds_nearest_ancestor_witness :
    (1 ≤ (["home", "user", "proj"] : Path).length ∧
      exFs (ancestor ["home", "user", "proj"] 1 ++ [".env"]) = MetaResult.ok true ∧
      (∀ k, k < 1 → missAt exFs (ancestor ["home", "user", "proj"] k ++ [".env"]) = true)) ∧
    (find_internal exFs ["home", "user", "proj"] ".env" true =
      Except.ok (ancestor ["home", "user", "proj"] 1 ++ [".env"]) ∧
    find_internal exFs ["home", "user", "proj"] ".env" false =
      (if 1 = 0 then Except.ok ((["home", "user", "proj"] : Path) ++ [".env"])
        else Except.error notFoundErr) ∧
    notFoundErr.not_found = true) :=
  ⟨⟨by decide, by decide, by decide⟩,
    locate_finds_nearest_ancestor exFs ["home", "user", "proj"] ".env" 1
      (by decide) (by decide) (by decide)⟩

/-- C2: when the metadata probe at some level fails with an io error
whose kind is not not-found (all lower levels having fallen through),
the search aborts with that io error regardless of anything higher up,
and that error does not register as NotFound. -/
theorem locate_aborts_on_io_error (fs : Fs) (directory : Path) (filename : String)
    (d : Nat) (e : IoError) (hd : d ≤ directory.length)
    (herr : fs (ancestor directory d ++ [filename]) = MetaResult.err e)
    (hk : e.kind ≠ IoErrorKind.notFound)
    (hmiss : ∀ k, k < d → missAt fs (ancestor directory k ++ [filename]) = true) :
    find_internal fs directory filename true = Except.error (Error.Io e) ∧
    (Error.Io e).not_found = false :=
  ⟨find_internal_error_depth fs filename e hk d directory hd herr hmiss, by
    unfold Error.not_found
    simp [hk]⟩

theorem locate_aborts_on_io_error_witness :
    (1 ≤ (["home", "user", "proj"] : Path).length ∧
      exFsPerm (ancestor ["home", "user", "proj"] 1 ++ [".env"]) =
        MetaResult.err ⟨IoErrorKind.permissionDenied, "permission denied"⟩ ∧
      (⟨IoErrorKind.permissionDenied, "permission denied"⟩ : IoError).kind ≠
        IoErrorKind.notFound ∧
      (∀ k, k < 1 → missAt exFsPerm (ancestor ["home", "user", "proj"] k ++ [".env"]) = true)) ∧
    (find_internal exFsPerm ["home", "user", "proj"] ".env" true =
      Except.error (Error.Io ⟨IoErrorKind.permissionDenied, "permission denied"⟩) ∧
    (Error.Io ⟨IoErrorKind.permissionDenied, "permission denied"⟩).not_found = false) :=
  ⟨⟨by decide, by decide, by decide, by decide⟩,
    locate_aborts_on_io_error exFsPerm ["home", "user", "proj"] ".env" 1
      ⟨IoErrorKind.permissionDenied, "permission denied"⟩
      (by decide) (by decide) (by decide) (by decide)⟩

/-- C3: when the candidate at the current level exists but is not a
regular file, the search does not fail there: it equals the search
started from the parent directory when one exists and the recursive
flag is set, and otherwise it fails with the NotFound error. -/
theorem locate_skips_nonfile_level (fs : Fs) (directory : Path) (filename : String)
    (recursive : Bool) (h : fs (directory ++ [filename]) = MetaResult.ok false) :
    (directory ≠ [] → find_internal fs directory filename true =
      find_internal fs directory.dropLast filename true) ∧
    (recursive = false ∨ directory = [] →
      find_internal fs directory filename recursive = Except.error notFoundErr) ∧
    notFoundErr.not_found = true := by
  have hm : missAt fs (directory ++ [filename]) = true := by
    unfold missAt
    rw [h]
    rfl
  exact ⟨fun hne => find_internal_miss_step fs directory filename hm hne,
    fun hstop => find_internal_miss_stop fs directory filename recursive hm hstop, rfl⟩

theorem locate_skips_nonfile_level_witness :
    (exFs ((["home"] : Path) ++ [".env"]) = MetaResult.ok false) ∧
    (((["home"] : Path) ≠ [] → find_internal exFs ["home"] ".env" true =
      find_internal exFs (["home"] : Path).dropLast ".env" true) ∧
    (false = false ∨ (["home"] : Path) = [] →
      find_internal exFs ["home"] ".env" false = Except.error notFoundErr) ∧
    notFoundErr.not_found = true) :=
  ⟨by decide, locate_skips_nonfile_level exFs ["home"] ".env" false (by decide)⟩

/-- C4: the search is strictly upward: its outcome depends only on the
filesystem's answers at ancestor-joined candidate paths, so files
placed anywhere else (for instance in a sibling directory) are never
probed or matched, and every returned path is an ancestor of the start
directory joined with the filename. -/
theorem locate_strictly_upward (fs fs' : Fs) (directory : Path) (filename : String)
    (recursive : Bool)
    (hagree : ∀ k, k ≤ directory.length →
      fs (ancestor directory k ++ [filename]) = fs' (ancestor directory k ++ [filename])) :
    find_internal fs directory filename recursive =
      find_internal fs' directory filename recursive ∧
    ∀ p, find_internal fs directory filename recursive = Except.ok p →
      ∃ k, k ≤ directory.length ∧ p = ancestor directory k ++ [filename] :=
  ⟨find_internal_congr filename recursive directory.length fs fs' directory rfl hagree,
    find_internal_ok_shape fs filename recursive directory.length directory rfl⟩

theorem locate_strictly_upward_witness :
    (∀ k, k ≤ (["home", "user", "proj"] : Path).length →
      exFsSibling (ancestor ["home", "user", "proj"] k ++ [".env"]) =
        exFs (ancestor ["home", "user", "proj"] k ++ [".env"])) ∧
    (find_internal exFsSibling ["home", "user", "proj"] ".env" true =
      find_internal exFs ["home", "user", "proj"] ".env" true ∧
    ∀ p, find_internal exFsSibling ["home", "user", "proj"] ".env" true = Except.ok p →
      ∃ k, k ≤ (["home", "user", "proj"] : Path).length ∧
        p = ancestor ["home", "user", "proj"] k ++ [".env"]) :=
  ⟨by decide,
    locate_strictly_upward exFsSibling exFs ["home", "user", "proj"] ".env" true (by decide)⟩

/-- C5: the walk visits the finite parent chain only, and whenever it
is exhausted without a hit (the recursive flag is off, or every level
up to the root falls through) it returns the NotFound error rather
than diverging. -/
theorem locate_exhausted_not_found (fs : Fs) (directory : Path) (filename : String) :
    (missAt fs (directory ++ [filename]) = true →
      find_internal fs directory filename false = Except.error notFoundErr) ∧
    ((∀ k, k ≤ directory.length → missAt fs (ancestor directory k ++ [filename]) = true) →
      find_internal fs directory filename true = Except.error notFoundErr) ∧
    notFoundErr.not_found = true :=
  ⟨fun h => find_internal_miss_stop fs directory filename false h (Or.inl rfl),
    fun h => find_internal_exhausted fs filename directory.length directory rfl h, rfl⟩

theorem locate_exhausted_not_found_witness :
    ((missAt exFs ((["tmp", "scratch"] : Path) ++ ["missing.env"]) = true →
      find_internal exFs ["tmp", "scratch"] "missing.env" false = Except.error notFoundErr) ∧
    ((∀ k, k ≤ (["tmp", "scratch"] : Path).length →
        missAt exFs (ancestor ["tmp", "scratch"] k ++ ["missing.env"]) = true) →
      find_internal exFs ["tmp", "scratch"] "missing.env" true = Except.error notFoundErr) ∧
    notFoundErr.not_found = true) ∧
    find_internal exFs ["tmp", "scratch"] "missing.env" true = Except.error notFoundErr :=
  ⟨locate_exhausted_not_found exFs ["tmp", "scratch"] "missing.env",
    (locate_exhausted_not_found exFs ["tmp", "scratch"] "missing.env").2.1 (by decide)⟩

/-- C6: the NotFound failure is an explicit tagged variant checked by
the is-not-found predicate, never string matching: the predicate holds
exactly on io errors whose kind tag is not-found, and on the errors
find_internal can return it holds exactly on the search-exhausted
NotFound error. -/
theorem not_found_is_tagged (fs : Fs) (directory : Path) (filename : String)
    (recursive : Bool) :
    (∀ e : Error, e.not_found = true ↔
      ∃ io_err : IoError, e = Error.Io io_err ∧ io_err.kind = IoErrorKind.notFound) ∧
    (∀ e : Error, find_internal fs directory filename recursive = Except.error e →
      (e.not_found = true ↔ e = notFoundErr)) := by
  constructor
  · intro e
    constructor
    · intro h
      cases e with
      | Io io_err =>
        refine ⟨io_err, rfl, ?_⟩
        unfold Error.not_found at h
        exact of_decide_eq_true h
      | LineParse l => exact absurd h (by simp [Error.not_found])
    · rintro ⟨io_err, rfl, hkind⟩
      unfold Error.not_found
      exact decide_eq_true hkind
  · intro e herr
    rcases find_internal_error_shape fs filename recursive directory.length directory
        rfl e herr with hnf | ⟨e', he, hk⟩
    · subst hnf
      exact ⟨fun _ => rfl, fun _ => rfl⟩
    · subst he
      constructor
      · intro h
        unfold Error.not_found at h
        exact absurd (of_decide_eq_true h) hk
      · intro h
        have h2 : Error.Io e' = Error.Io ⟨IoErrorKind.notFound, "path not found"⟩ := h
        injection h2 with h3
        rw [h3] at hk
        exact absurd rfl hk

theorem not_found_is_tagged_witness :
    (∀ e : Error, e.not_found = true ↔
      ∃ io_err : IoError, e = Error.Io io_err ∧ io_err.kind = IoErrorKind.notFound) ∧
    (∀ e : Error, find_internal exFs ["tmp", "scratch"] "missing.env" true = Except.error e →
      (e.not_found = true ↔ e = notFoundErr)) :=
  not_found_is_tagged exFs ["tmp", "scratch"] "missing.env" true

/-- Config from src/lib.rs: the dotenv filename (a relative component,
per the spec's data-model invariant), the recursive-search flag and
the fail-if-missing toggle. -/
structure Config where
  filename : String
  recursive_search : Bool
  fail_if_missing_dotenv : Bool
deriving DecidableEq, Repr

/-- The default Config from src/lib.rs: filename .env, recursive
search on, missing dotenv not fatal. -/
def Config.default : Config :=
  { filename := ".env", recursive_search := true, fail_if_missing_dotenv := false }

/-- The ambient machine state the crate touches: the current working
directory, the filesystem metadata answers, and the outcome of opening
a located file, given as the sequence of line-parse results its Iter
yields (the parser itself lives in iter.rs and parse.rs outside the
embedded sources, so the yielded sequence is taken as given). -/
structure World where
  cwd : Path
  fs : Fs
  open_file : Path → Except IoError (List (Except Error (String × String)))

/-- find from src/find.rs: locate the file from the current working
directory with find_internal, then open it; an open failure surfaces
as an Io error. Returns the resolved path together with the line
iterator the parser will drain. -/
def find (w : World) (config : Config) :
    Except Error (Path × List (Except Error (String × String))) :=
  match find_internal w.fs w.cwd config.filename config.recursive_search with
  | Except.error e => Except.error e
  | Except.ok path =>
    match w.open_file path with
    | Except.error e => Except.error (Error.Io e)
    | Except.ok lines => Except.ok (path, lines)

/-- The rustc-env instruction line written for one parsed entry. -/
def rustc_env_line (kv : String × String) : String :=
  "cargo:rustc-env=" ++ kv.1 ++ "=" ++ kv.2

/-- A path rendered as the absolute string the rerun instruction
carries. -/
def path_to_str (p : Path) : String :=
  "/" ++ String.intercalate "/" p

/-- The rerun-if-changed instruction line written for the resolved
path. -/
def rerun_line (p : Path) : String :=
  "cargo:rerun-if-changed=" ++ path_to_str p

/-- The for-loop of output_write_to in src/lib.rs over the line
results: each parsed entry is written as its rustc-env line, and the
first failed line stops the loop and becomes the returned error.
The first component collects the lines written to the output stream. -/
def write_entries : List (Except Error (String × String)) → List String × Except Error Unit
  | [] => ([], Except.ok ())
  | Except.ok kv :: rest =>
    (rustc_env_line kv :: (write_entries rest).1, (write_entries rest).2)
  | Except.error e :: _ => ([], Except.error e)

/-- output_write_to from src/lib.rs: run find; a NotFound failure is
fatal only under the fail-if-missing toggle, any other failure is
fatal; otherwise write one rustc-env line per parsed entry in order,
stopping at the first parse failure, and after a fully successful loop
write the rerun-if-changed line for the resolved path. The first
component is everything written to the output stream. -/
def output_write_to (w : World) (config : Config) : List String × Except Error Unit :=
  match find w config with
  | Except.error err =>
    if err.not_found then
      if config.fail_if_missing_dotenv then ([], Except.error err)
      else ([], Except.ok ())
    else ([], Except.error err)
  | Except.ok (path, lines) =>
    match write_entries lines with
    | (out, Except.ok _) => (out ++ [rerun_line path], Except.ok ())
    | (out, Except.error e) => (out, Except.error e)

/-- output from src/lib.rs: output_write_to aimed at the standard
output stream, which the model represents by the collected first
component. -/
def output (w : World) (config : Config) : List String × Except Error Unit :=
  output_write_to w config

/-- output_multiple from src/lib.rs: run output_write_to on each
config in order, short-circuiting on the first error; writes from the
processed prefix stay on the stream. -/
def output_multiple (w : World) : List Config → List String × Except Error Unit
  | [] => ([], Except.ok ())
  | config :: rest =>
    match output_write_to w config with
    | (out, Except.ok _) =>
      (out ++ (output_multiple w rest).1, (output_multiple w rest).2)
    | (out, Except.error e) => (out, Except.error e)

theorem write_entries_all_ok (entries : List (String × String)) :
    write_entries (entries.map Except.ok) = (entries.map rustc_env_line, Except.ok ()) := by
  induction entries with
  | nil => rfl
  | cons kv rest ih => simp [write_entries, ih]

theorem write_entries_stops (good : List (String × String)) (e : Error)
    (rest : List (Except Error (String × String))) :
    write_entries (good.map Except.ok ++ Except.error e :: rest) =
      (good.map rustc_env_line, Except.error e) := by
  induction good with
  | nil => rfl
  | cons kv g ih => simp [write_entries, ih]

theorem output_multiple_ok_iff (w : World) (configs : List Config) :
    (output_multiple w configs).2 = Except.ok () ↔
      ∀ c ∈ configs, (output_write_to w c).2 = Except.ok () := by
  induction configs with
  | nil => simp [output_multiple]
  | cons c rest ih =>
    rcases hc : output_write_to w c with ⟨out, r⟩
    cases r with
    | ok u =>
      cases u
      simp [output_multiple, hc, ih]
    | error e =>
      simp [output_multiple, hc]

theorem output_multiple_append_ok (w : World) (pre : List Config)
    (hok : ∀ c ∈ pre, (output_write_to w c).2 = Except.ok ())
    (rest : List Config) :
    output_multiple w (pre ++ rest) =
      ((pre.map fun c => (output_write_to w c).1).flatten ++ (output_multiple w rest).1,
        (output_multiple w rest).2) := by
  induction pre with
  | nil => simp [output_multiple]
  | cons c p ih =>
    have hc : (output_write_to w c).2 = Except.ok () := hok c (by simp)
    rcases hr : output_write_to w c with ⟨out, r⟩
    rw [hr] at hc
    simp only at hc
    subst hc
    have ih' := ih (fun c' hc' => hok c' (by simp [hc']))
    simp [output_multiple, hr, ih']

/-- A sample world for concrete checks: working directory two levels
below home, the exFs filesystem, and a dotenv file whose lines all
parse. -/
def exWorld : World :=
  { cwd := ["home", "user", "proj"]
    fs := exFs
    open_file := fun p =>
      if p = ["home", "user", ".env"] then
        Except.ok [Except.ok ("RUST_LOG", "debug"), Except.ok ("TEST", "hello world!")]
      else Except.error ⟨IoErrorKind.notFound, "no such file or directory"⟩ }

/-- A sample world whose dotenv file has a malformed second line
followed by a further well-formed one. -/
def exWorldBad : World :=
  { cwd := ["home", "user", "proj"]
    fs := exFs
    open_file := fun p =>
      if p = ["home", "user", ".env"] then
        Except.ok [Except.ok ("A", "1"), Except.error (Error.LineParse "NOVALUE"),
          Except.ok ("B", "2")]
      else Except.error ⟨IoErrorKind.notFound, "no such file or directory"⟩ }

/-- A config asking for a file that exists nowhere in the sample
worlds, with the missing-dotenv toggle off. -/
def cfgMissing : Config :=
  { filename := "missing.env", recursive_search := true, fail_if_missing_dotenv := false }

/-- The same missing-file config with the missing-dotenv toggle on. -/
def cfgMissingFail : Config :=
  { filename := "missing.env", recursive_search := true, fail_if_missing_dotenv := true }

/-- The entries the sample dotenv file parses to. -/
def exEntries : List (String × String) := [("RUST_LOG", "debug"), ("TEST", "hello world!")]

/-- C7: when find fails, output_write_to writes nothing; a NotFound
failure is returned as an error exactly when the fail-if-missing
toggle is set and is swallowed into Ok otherwise, while every other
failure is returned as an error regardless of the toggle. -/
theorem output_not_found_policy (w : World) (config : Config) (e : Error)
    (h : find w config = Except.error e) :
    output_write_to w config =
      if e.not_found then
        (if config.fail_if_missing_dotenv then ([], Except.error e)
          else ([], Except.ok ()))
      else ([], Except.error e) := by
  unfold output_write_to
  rw [h]

theorem output_not_found_policy_witness :
    (find exWorld cfgMissing = Except.error notFoundErr) ∧
    output_write_to exWorld cfgMissing =
      (if notFoundErr.not_found then
        (if cfgMissing.fail_if_missing_dotenv then ([], Except.error notFoundErr)
          else ([], Except.ok ()))
        else ([], Except.error notFoundErr)) :=
  ⟨by rfl, output_not_found_policy exWorld cfgMissing notFoundErr (by rfl)⟩

/-- C8: on a fully successful run, output_write_to writes exactly one
rustc-env line per parsed entry, in file order with duplicates kept,
followed by the single rerun-if-changed line for the resolved path. -/
theorem output_success_writes_all (w : World) (config : Config) (path : Path)
    (entries : List (String × String))
    (h : find w config = Except.ok (path, entries.map Except.ok)) :
    output_write_to w config =
      (entries.map rustc_env_line ++ [rerun_line path], Except.ok ()) := by
  unfold output_write_to
  rw [h]
  simp only [write_entries_all_ok]

theorem output_success_writes_all_witness :
    (find exWorld Config.default =
      Except.ok (["home", "user", ".env"], exEntries.map Except.ok)) ∧
    output_write_to exWorld Config.default =
      (exEntries.map rustc_env_line ++ [rerun_line ["home", "user", ".env"]],
        Except.ok ()) :=
  ⟨by rfl,
    output_success_writes_all exWorld Config.default ["home", "user", ".env"]
      exEntries (by rfl)⟩

/-- C9: when the line sequence yields a failure, output_write_to
returns that first failure: the entries before it have each produced
their rustc-env line, and nothing after it - in particular no
rerun-if-changed line - is written. -/
theorem output_stops_at_parse_failure (w : World) (config : Config) (path : Path)
    (good : List (String × String)) (e : Error)
    (rest : List (Except Error (String × String)))
    (h : find w config = Except.ok (path, good.map Except.ok ++ Except.error e :: rest)) :
    output_write_to w config = (good.map rustc_env_line, Except.error e) := by
  unfold output_write_to
  rw [h]
  simp only [write_entries_stops]

theorem output_stops_at_parse_failure_witness :
    (find exWorldBad Config.default =
      Except.ok (["home", "user", ".env"],
        [("A", "1")].map Except.ok ++
          Except.error (Error.LineParse "NOVALUE") :: [Except.ok ("B", "2")])) ∧
    output_write_to exWorldBad Config.default =
      ([("A", "1")].map rustc_env_line, Except.error (Error.LineParse "NOVALUE")) :=
  ⟨by rfl,
    output_stops_at_parse_failure exWorldBad Config.default ["home", "user", ".env"]
      [("A", "1")] (Error.LineParse "NOVALUE") [Except.ok ("B", "2")] (by rfl)⟩

/-- C10: output_multiple handles its configs strictly in order and
stops at the first failing one: it succeeds exactly when every config
succeeds, and when a config fails after a succeeding prefix the result
is that error with only the prefix's writes (plus the failing config's
partial writes) on the stream, the remaining configs contributing
nothing. -/
theorem output_multiple_in_order (w : World) :
    (∀ configs : List Config, (output_multiple w configs).2 = Except.ok () ↔
      ∀ c ∈ configs, (output_write_to w c).2 = Except.ok ()) ∧
    (∀ (pre : List Config) (c : Config) (post : List Config) (e : Error),
      (∀ c' ∈ pre, (output_write_to w c').2 = Except.ok ()) →
      (output_write_to w c).2 = Except.error e →
      output_multiple w (pre ++ c :: post) =
        ((pre.map fun c' => (output_write_to w c').1).flatten ++ (output_write_to w c).1,
          Except.error e)) := by
  refine ⟨output_multiple_ok_iff w, ?_⟩
  intro pre c post e hpre hc
  rw [output_multiple_append_ok w pre hpre (c :: post)]
  rcases hr : output_write_to w c with ⟨out, r⟩
  rw [hr] at hc
  simp only at hc
  subst hc
  simp [output_multiple, hr]

theorem output_multiple_in_order_witness :
    ((∀ c' ∈ [Config.default], (output_write_to exWorld c').2 = Except.ok ()) ∧
      (output_write_to exWorld cfgMissingFail).2 = Except.error notFoundErr) ∧
    output_multiple exWorld ([Config.default] ++ cfgMissingFail :: [Config.default]) =
      (([Config.default].map fun c' => (output_write_to exWorld c').1).flatten ++
        (output_write_to exWorld cfgMissingFail).1, Except.error notFoundErr) :=
  ⟨⟨by
      intro c' hc'
      rw [List.mem_singleton] at hc'
      subst hc'
      rfl,
    by rfl⟩,
    (output_multiple_in_order exWorld).2 [Config.default] cfgMissingFail
      [Config.default] notFoundErr
      (by
        intro c' hc'
        rw [List.mem_singleton] at hc'
        subst hc'
        rfl)
      (by rfl)⟩

end DotenvBuild
